import Mathlib

/-!
Verification of the automation run-ledger and generation pipeline
(src/backend/src/utils/automationLogger.ts and the data model in
src/backend/src/models/automationRun.ts).

The ledger (`AutomationLogger`) is embedded as a pure state record plus
operations that take the persistence collaborator's behaviour for the call
(success or a thrown error) as an explicit `Except String Unit` argument;
a TypeScript `try { ... } catch { ... }` becomes a `match` on that result.
-/

/-- Status type `AutomationRunStatus` from src/backend/src/models/automationRun.ts:
`"success" | "partial" | "error"`.  The source's `"partial"` is a Lean
keyword, so the constructor is named `mixed` here. -/
inductive AutomationRunStatus where
  | success
  | mixed
  | error
  deriving DecidableEq, Repr

/-- Level type `AutomationEventLevel` from automationRun.ts: `"info" | "warn" | "error"`. -/
inductive AutomationEventLevel where
  | info
  | warn
  | error
  deriving DecidableEq, Repr

/-- Step type `AutomationEventStep` from automationRun.ts. -/
inductive AutomationEventStep where
  | selectChannels
  | channelCheck
  | generateIdea
  | generatePrompt
  | createJob
  | sendToBot
  | updateChannelNextRun
  | other
  deriving DecidableEq, Repr

/-- The event payload passed to `AutomationLogger.logEvent`
(an `AutomationEvent` minus `runId`/`createdAt`, automationLogger.ts line 30).
The free-form `details` mapping is modelled as a string association list. -/
structure AutomationEvent where
  level : AutomationEventLevel
  step : AutomationEventStep
  channelId : Option String
  channelName : Option String
  message : String
  details : Option (List (String × String))
  deriving DecidableEq, Repr

/-- The mutable in-memory fields of class `AutomationLogger`
(automationLogger.ts lines 14-17): `runId`, `errorsCount`, `jobsCreated`,
`channelsProcessed` (counters start at 0). -/
structure LoggerState where
  runId : String
  errorsCount : Nat
  jobsCreated : Nat
  channelsProcessed : Nat
  deriving DecidableEq, Repr

/-- Method `AutomationLogger.logEvent` (automationLogger.ts lines 29-50).
`persist` is the outcome of the `createAutomationEvent` call for this
invocation.  On success the error counter is incremented when
`event.level === "error"`; a thrown persistence error is caught
(`// Не пробрасываем ошибку`) and the method returns normally with the
state unchanged (the increment sits after the `await` inside the `try`,
so it is skipped when persistence throws). -/
def logEvent (persist : Except String Unit) (st : LoggerState)
    (event : AutomationEvent) : Except String LoggerState :=
  match persist with
  | .ok _ =>
      .ok (if event.level = .error then
            { st with errorsCount := st.errorsCount + 1 }
          else st)
  | .error _ => .ok st

/-- Method `AutomationLogger.updateRun` (automationLogger.ts lines 55-66): forwards
the patch to `updateAutomationRun`; any thrown error is caught and the
method returns normally. -/
def updateRun (persist : Except String Unit) : Except String Unit :=
  match persist with
  | .ok _ => .ok ()
  | .error _ => .ok ()

/-- Method `AutomationLogger.incrementJobsCreated` (automationLogger.ts lines 71-73). -/
def incrementJobsCreated (st : LoggerState) : LoggerState :=
  { st with jobsCreated := st.jobsCreated + 1 }

/-- Method `AutomationLogger.incrementChannelsProcessed` (automationLogger.ts lines 78-80). -/
def incrementChannelsProcessed (st : LoggerState) : LoggerState :=
  { st with channelsProcessed := st.channelsProcessed + 1 }

/-- The status computation inside `AutomationLogger.finishRun`
(automationLogger.ts lines 88-96): `status` starts as `"success"`; when
`errorsCount > 0` it becomes `"error"` if both other counters are 0 and
`"partial"` otherwise. -/
def finishStatus (errorsCount jobsCreated channelsProcessed : Nat) :
    AutomationRunStatus :=
  if errorsCount > 0 then
    if jobsCreated = 0 ∧ channelsProcessed = 0 then
      AutomationRunStatus.error
    else
      AutomationRunStatus.mixed
  else
    AutomationRunStatus.success

/-- The fields of the patch submitted by `finishRun` to `updateRun`
(automationLogger.ts lines 98-104), minus the wall-clock `finishedAt`. -/
structure RunPatch where
  status : AutomationRunStatus
  channelsProcessed : Nat
  jobsCreated : Nat
  errorsCount : Nat
  deriving DecidableEq, Repr

/-- The patch `finishRun` builds from the ledger's in-memory counters. -/
def finishRunPatch (st : LoggerState) : RunPatch :=
  { status := finishStatus st.errorsCount st.jobsCreated st.channelsProcessed
    channelsProcessed := st.channelsProcessed
    jobsCreated := st.jobsCreated
    errorsCount := st.errorsCount }

/-- Method `AutomationLogger.finishRun` (automationLogger.ts lines 85-112): builds
the final patch, submits it through `this.updateRun` (which already never
throws), and wraps the whole body in a `try`/`catch` that swallows any
error.  `persist` is the behaviour of the underlying `updateAutomationRun`. -/
def finishRun (persist : Except String Unit) (st : LoggerState) :
    Except String RunPatch :=
  match updateRun persist with
  | .ok _ => .ok (finishRunPatch st)
  | .error _ => .ok (finishRunPatch st)

/-- C1: `finishRun` computes the final status exactly by: `success` iff
`errorsCount = 0`; `error` iff `errorsCount > 0` and both `jobsCreated`
and `channelsProcessed` are 0; `partial` (`mixed` here) iff
`errorsCount > 0` and at least one of the two progress counters is
positive — and the status it submits in the final patch is exactly this
aggregate of the ledger's in-memory counters. -/
theorem finishStatus_characterization (rid : String) (e j c : Nat) :
    (finishStatus e j c = .success ↔ e = 0) ∧
    (finishStatus e j c = .error ↔ 0 < e ∧ j = 0 ∧ c = 0) ∧
    (finishStatus e j c = .mixed ↔ 0 < e ∧ (0 < j ∨ 0 < c)) ∧
    (finishRunPatch ⟨rid, e, j, c⟩).status = finishStatus e j c := by
  refine ⟨?_, ?_, ?_, rfl⟩ <;>
    · unfold finishStatus
      split_ifs with h1 h2 <;> simp <;> omega

/-- C2: none of `logEvent`, `updateRun`, `finishRun` ever surfaces an error
to its caller, whatever the persistence collaborator does on the call
(success or any thrown error): each returns an `ok` result. -/
theorem ledger_never_raises (p₁ p₂ p₃ : Except String Unit)
    (st₁ st₃ : LoggerState) (ev : AutomationEvent) :
    (logEvent p₁ st₁ ev).isOk = true ∧
    (updateRun p₂).isOk = true ∧
    (finishRun p₃ st₃).isOk = true := by
  refine ⟨?_, ?_, ?_⟩
  · cases p₁ <;> rfl
  · cases p₂ <;> rfl
  · cases p₃ <;> rfl

/-- C3 counterexample: a `logEvent` call with `level = error` on which the
event-append persistence throws leaves `errorsCount` unchanged at 0 (the
claim demands it increase by exactly one on every error-level call,
including persistence-failed ones). -/
theorem logEvent_persistFail_no_increment :
    logEvent (.error "Firestore unavailable") ⟨"run1", 0, 0, 0⟩
        ⟨.error, .other, none, none, "boom", none⟩ =
      .ok ⟨"run1", 0, 0, 0⟩ ∧ (0 : Nat) ≠ 0 + 1 := by
  exact ⟨rfl, by omega⟩

/-- C3 amended: on a call whose event-append persistence succeeds,
`errorsCount` increases by exactly one when `level = error` and is
unchanged for `info`/`warn`; on a call whose persistence throws, the
counter is unchanged regardless of level. -/
theorem logEvent_errorsCount_amended (st : LoggerState)
    (ev : AutomationEvent) (e : String) :
    (ev.level = .error →
      logEvent (.ok ()) st ev = .ok { st with errorsCount := st.errorsCount + 1 }) ∧
    (ev.level ≠ .error → logEvent (.ok ()) st ev = .ok st) ∧
    logEvent (.error e) st ev = .ok st := by
  refine ⟨fun h => ?_, fun h => ?_, rfl⟩
  · simp [logEvent, h]
  · simp [logEvent, h]

/-- Witness for `logEvent_errorsCount_amended` at concrete inputs. -/
theorem logEvent_errorsCount_amended_witness :
    logEvent (.ok ()) ⟨"r", 4, 1, 2⟩ ⟨.error, .other, none, none, "m", none⟩ =
        .ok ⟨"r", 5, 1, 2⟩ ∧
      logEvent (.ok ()) ⟨"r", 4, 1, 2⟩ ⟨.info, .other, none, none, "m", none⟩ =
        .ok ⟨"r", 4, 1, 2⟩ :=
  ⟨(logEvent_errorsCount_amended ⟨"r", 4, 1, 2⟩
      ⟨.error, .other, none, none, "m", none⟩ "x").1 rfl,
   (logEvent_errorsCount_amended ⟨"r", 4, 1, 2⟩
      ⟨.info, .other, none, none, "m", none⟩ "x").2.1 (by simp)⟩

/-- C10: each counter operation touches only its own counter —
`incrementJobsCreated` bumps `jobsCreated` only, `incrementChannelsProcessed`
bumps `channelsProcessed` only, and `logEvent` never changes `jobsCreated`
or `channelsProcessed` (whatever the persistence outcome). -/
theorem counter_frame_conditions (st st' : LoggerState)
    (persist : Except String Unit) (ev : AutomationEvent) :
    (incrementJobsCreated st).jobsCreated = st.jobsCreated + 1 ∧
    (incrementJobsCreated st).errorsCount = st.errorsCount ∧
    (incrementJobsCreated st).channelsProcessed = st.channelsProcessed ∧
    (incrementJobsCreated st).runId = st.runId ∧
    (incrementChannelsProcessed st).channelsProcessed = st.channelsProcessed + 1 ∧
    (incrementChannelsProcessed st).errorsCount = st.errorsCount ∧
    (incrementChannelsProcessed st).jobsCreated = st.jobsCreated ∧
    (incrementChannelsProcessed st).runId = st.runId ∧
    (logEvent persist st ev = .ok st' →
      st'.jobsCreated = st.jobsCreated ∧
      st'.channelsProcessed = st.channelsProcessed ∧
      st'.runId = st.runId) := by
  refine ⟨rfl, rfl, rfl, rfl, rfl, rfl, rfl, rfl, fun h => ?_⟩
  cases persist with
  | ok u =>
      by_cases hl : ev.level = .error <;>
        simp [logEvent, hl] at h <;> subst h <;> exact ⟨rfl, rfl, rfl⟩
  | error e =>
      simp [logEvent] at h
      subst h
      exact ⟨rfl, rfl, rfl⟩

/-- Witness for `counter_frame_conditions` at concrete inputs. -/
theorem counter_frame_conditions_witness :
    (⟨"r", 8, 1, 2⟩ : LoggerState).jobsCreated =
        (⟨"r", 7, 1, 2⟩ : LoggerState).jobsCreated ∧
      (⟨"r", 8, 1, 2⟩ : LoggerState).channelsProcessed =
        (⟨"r", 7, 1, 2⟩ : LoggerState).channelsProcessed ∧
      (⟨"r", 8, 1, 2⟩ : LoggerState).runId =
        (⟨"r", 7, 1, 2⟩ : LoggerState).runId :=
  (counter_frame_conditions ⟨"r", 7, 1, 2⟩ ⟨"r", 8, 1, 2⟩ (.ok ())
      ⟨.error, .other, none, none, "m", none⟩).2.2.2.2.2.2.2.2 rfl

/-!
The generation pipeline (second half of automationLogger.ts, the OpenAI
module).  The external model's reply is a raw text; `JSON.parse` and the
JavaScript value operations the source applies to its result are embedded
below.  JSON numbers are modelled as integers (no claim depends on
fractional values).
-/

/-- A JavaScript value as produced by `JSON.parse` plus `undefined`
(the result of a missed property access).  `JSON.parse` itself never
returns `undefined`. -/
inductive JsVal where
  | undefined
  | null
  | bool (b : Bool)
  | num (n : Int)
  | str (s : String)
  | arr (elems : List JsVal)
  | obj (fields : List (String × JsVal))

/-- JavaScript truthiness of a value. -/
def JsVal.truthy : JsVal → Bool
  | .undefined => false
  | .null => false
  | .bool b => b
  | .num n => n != 0
  | .str s => s != ""
  | .arr _ => true
  | .obj _ => true

/-- JavaScript `a || b`. -/
def jsOr (a b : JsVal) : JsVal := if a.truthy then a else b

/-- Property lookup in an object's field list (first occurrence; the parser
below keeps a duplicated key at its first position with its last value,
as `JSON.parse` does). -/
def getField : List (String × JsVal) → String → JsVal
  | [], _ => .undefined
  | (k, v) :: rest, key => if k = key then v else getField rest key

/-- JavaScript property access `v.key` on a value on which it cannot throw:
objects look the key up, every other non-nullish value yields `undefined`. -/
def jsField : JsVal → String → JsVal
  | .obj fs, key => getField fs key
  | _, _ => .undefined

/-- Predicate `JsVal.isArr v` is `Array.isArray(v)`. -/
def JsVal.isArr : JsVal → Bool
  | .arr _ => true
  | _ => false

/-- The error outcomes of the pipeline functions (automationLogger.ts throws
`Error` with distinct messages; a JavaScript `TypeError` escaping to the
generic catch-all is `typeError`). -/
inductive GenError where
  | serviceError
  | parseError
  | arrayNotFound
  | emptyResult
  | missingField
  | typeError
  deriving DecidableEq, Repr

/-- Insert a parsed object field the way `JSON.parse` does: a duplicated key
keeps its first position and takes the later value. -/
def insertField : List (String × JsVal) → String → JsVal → List (String × JsVal)
  | [], k, v => [(k, v)]
  | (k', v') :: rest, k, v =>
      if k' = k then (k', v) :: rest else (k', v') :: insertField rest k v

/-- JSON whitespace. -/
def isJsonWs (c : Char) : Bool := c = ' ' || c = '\n' || c = '\t' || c = '\r'

/-- Skip JSON whitespace. -/
def skipWs (cs : List Char) : List Char := cs.dropWhile isJsonWs

/-- Value of a hexadecimal digit. -/
def hexVal (c : Char) : Option Nat :=
  if '0' ≤ c ∧ c ≤ '9' then some (c.toNat - '0'.toNat)
  else if 'a' ≤ c ∧ c ≤ 'f' then some (c.toNat - 'a'.toNat + 10)
  else if 'A' ≤ c ∧ c ≤ 'F' then some (c.toNat - 'A'.toNat + 10)
  else none

/-- Body of a JSON string literal (after the opening quote), with the
standard escapes; rejects raw control characters as `JSON.parse` does. -/
def parseStrBody : Nat → List Char → List Char → Option (String × List Char)
  | 0, _, _ => none
  | _ + 1, [], _ => none
  | fuel + 1, c :: rest, acc =>
    if c = '"' then some (String.mk acc.reverse, rest)
    else if c = '\\' then
      match rest with
      | [] => none
      | e :: r =>
        if e = '"' then parseStrBody fuel r ('"' :: acc)
        else if e = '\\' then parseStrBody fuel r ('\\' :: acc)
        else if e = '/' then parseStrBody fuel r ('/' :: acc)
        else if e = 'n' then parseStrBody fuel r ('\n' :: acc)
        else if e = 't' then parseStrBody fuel r ('\t' :: acc)
        else if e = 'r' then parseStrBody fuel r ('\r' :: acc)
        else if e = 'b' then parseStrBody fuel r ('\x08' :: acc)
        else if e = 'f' then parseStrBody fuel r ('\x0c' :: acc)
        else if e = 'u' then
          match r with
          | h1 :: h2 :: h3 :: h4 :: r' =>
            match hexVal h1, hexVal h2, hexVal h3, hexVal h4 with
            | some a, some b, some c', some d =>
                parseStrBody fuel r'
                  (Char.ofNat (((a * 16 + b) * 16 + c') * 16 + d) :: acc)
            | _, _, _, _ => none
          | _ => none
        else none
    else if c.toNat < 0x20 then none
    else parseStrBody fuel rest (c :: acc)

/-- An unsigned run of decimal digits. -/
def parseNum (cs : List Char) : Option (Nat × List Char) :=
  let ds := cs.takeWhile Char.isDigit
  if ds.isEmpty then none
  else some (ds.foldl (fun a c => a * 10 + (c.toNat - '0'.toNat)) 0, cs.drop ds.length)

mutual

/-- Recursive-descent model of `JSON.parse` on one value (fuel-indexed). -/
def parseValue : Nat → List Char → Option (JsVal × List Char)
  | 0, _ => none
  | fuel + 1, cs =>
    match skipWs cs with
    | [] => none
    | c :: rest =>
      if c = 'n' then
        match rest with
        | 'u' :: 'l' :: 'l' :: r => some (.null, r)
        | _ => none
      else if c = 't' then
        match rest with
        | 'r' :: 'u' :: 'e' :: r => some (.bool true, r)
        | _ => none
      else if c = 'f' then
        match rest with
        | 'a' :: 'l' :: 's' :: 'e' :: r => some (.bool false, r)
        | _ => none
      else if c = '"' then
        (parseStrBody fuel rest []).map (fun p => (.str p.1, p.2))
      else if c = '[' then
        match skipWs rest with
        | ']' :: r => some (.arr [], r)
        | r => parseElems fuel r []
      else if c = '{' then
        match skipWs rest with
        | '}' :: r => some (.obj [], r)
        | r => parseFields fuel r []
      else if c = '-' then
        (parseNum rest).map (fun p => (.num (-(p.1 : Int)), p.2))
      else if c.isDigit then
        (parseNum (c :: rest)).map (fun p => (.num (p.1 : Int), p.2))
      else none

/-- Elements of a (non-empty) JSON array. -/
def parseElems : Nat → List Char → List JsVal → Option (JsVal × List Char)
  | 0, _, _ => none
  | fuel + 1, cs, acc =>
    match parseValue fuel cs with
    | none => none
    | some (v, r) =>
      match skipWs r with
      | ',' :: r2 => parseElems fuel r2 (v :: acc)
      | ']' :: r2 => some (.arr (v :: acc).reverse, r2)
      | _ => none

/-- Fields of a (non-empty) JSON object. -/
def parseFields : Nat → List Char → List (String × JsVal) →
    Option (JsVal × List Char)
  | 0, _, _ => none
  | fuel + 1, cs, acc =>
    match skipWs cs with
    | '"' :: r =>
      match parseStrBody fuel r [] with
      | none => none
      | some (k, r2) =>
        match skipWs r2 with
        | ':' :: r3 =>
          match parseValue fuel r3 with
          | none => none
          | some (v, r4) =>
            match skipWs r4 with
            | ',' :: r5 => parseFields fuel r5 (insertField acc k v)
            | '}' :: r5 => some (.obj (insertField acc k v), r5)
            | _ => none
        | _ => none
    | _ => none

end

/-- Model of `JSON.parse(s)`: one JSON value covering the whole text (up to
whitespace), otherwise a parse failure (`none`). -/
def jsonParse (s : String) : Option JsVal :=
  match parseValue (2 * s.length + 8) s.data with
  | some (v, rest) => if (skipWs rest).isEmpty then some v else none
  | none => none

/-- The fallback `content.match(/\[[\s\S]*\]/)` (automationLogger.ts line
263): the regex is greedy, so the (single) match runs from the first `[`
of the text to the last `]`, provided that last `]` lies after it. -/
def bracketSlice (s : String) : Option String :=
  match s.data.findIdx? (fun c => c = '['), s.data.reverse.findIdx? (fun c => c = ']') with
  | some i, some jr =>
      let j := s.data.length - 1 - jr
      if i < j then some (String.mk ((s.data.drop i).take (j + 1 - i))) else none
  | _, _ => none

/-- Lines 258-269: direct `JSON.parse` of the reply, with the greedy
bracket-substring fallback on failure. -/
def parseIdeasResponse (text : String) : Except GenError JsVal :=
  match jsonParse text with
  | some v => .ok v
  | none =>
    match bracketSlice text with
    | some sub =>
      match jsonParse sub with
      | some v => .ok v
      | none => .error .parseError
    | none => .error .parseError

/-- Lines 272-287: locate the idea array in the parsed value — the value
itself, else a truthy `ideas` array field, else a truthy `data` array
field, else the first field holding an array (`Object.keys(...).find`);
property access on `null` throws a `TypeError`. -/
def locateArray (parsed : JsVal) : Except GenError (List JsVal) :=
  match parsed with
  | .arr xs => .ok xs
  | .null => .error .typeError
  | .undefined => .error .typeError
  | _ =>
    match jsField parsed "ideas" with
    | .arr xs => .ok xs
    | _ =>
      match jsField parsed "data" with
      | .arr xs => .ok xs
      | _ =>
        match parsed with
        | .obj fs =>
          match fs.find? (fun p => p.2.isArr) with
          | some p =>
            match p.2 with
            | .arr xs => .ok xs
            | _ => .error .arrayNotFound
          | none => .error .arrayNotFound
        | _ => .error .arrayNotFound

/-- The synthesized id `idea_${Date.now()}_${index}` (line 291), with
`Date.now()` as an explicit `now` parameter. -/
def mkIdeaId (now idx : Nat) : String :=
  "idea_" ++ Nat.repr now ++ "_" ++ Nat.repr idx

/-- The `Idea` interface (title and description kept as raw JS values,
since the source assigns `item.title || item.name || ...` without any
conversion). -/
structure Idea where
  id : String
  title : JsVal
  description : JsVal

/-- One element of the `ideasArray.slice(0, count).map((item, index) => ...)`
callback (lines 290-294): property access on a `null` element throws (and is
caught by the generic handler); otherwise the `||` fallback chains apply. -/
def mkIdea (now idx : Nat) (item : JsVal) : Except GenError Idea :=
  match item with
  | .null => .error .typeError
  | .undefined => .error .typeError
  | _ =>
    .ok { id := mkIdeaId now idx
          title := jsOr (jsField item "title")
              (jsOr (jsField item "name") (.str ("Идея " ++ Nat.repr (idx + 1))))
          description := jsOr (jsField item "description")
              (jsOr (jsField item "text") (.str "")) }

/-- The indexed map of line 290, starting at `idx`. -/
def mapIdeasFrom (now : Nat) : Nat → List JsVal → Except GenError (List Idea)
  | _, [] => .ok []
  | idx, item :: rest =>
    match mkIdea now idx item with
    | .error e => .error e
    | .ok i =>
      match mapIdeasFrom now (idx + 1) rest with
      | .error e => .error e
      | .ok is => .ok (i :: is)

/-- Lines 272-298: from the parsed value, locate the array, map up to
`count` elements to Ideas, and fail with the empty-result error if no
idea remains. -/
def extractIdeas (parsed : JsVal) (count now : Nat) :
    Except GenError (List Idea) :=
  match locateArray parsed with
  | .error e => .error e
  | .ok arrv =>
    match mapIdeasFrom now 0 (arrv.take count) with
    | .error e => .error e
    | .ok ideas =>
      if ideas.isEmpty then .error .emptyResult else .ok ideas

/-- The response-processing core of `generateIdeas` (lines 250-301):
empty-reply check, parse with fallback, then idea extraction.  `content`
is the model reply (`none` for a missing completion), `count` the
requested idea count, `now` the generation timestamp. -/
def generateIdeasCore (content : Option String) (count now : Nat) :
    Except GenError (List Idea) :=
  match content with
  | none => .error .serviceError
  | some text =>
    if text = "" then .error .serviceError
    else
      match parseIdeasResponse text with
      | .error e => .error e
      | .ok parsed => extractIdeas parsed count now

/-- String append acts as list append on the character data. -/
theorem data_append_eq (s t : String) : (s ++ t).data = s.data ++ t.data := by
  cases s; cases t; rfl

/-- Decimal representations of distinct naturals below 10 differ. -/
theorem natRepr_ne_below_ten :
    ∀ i, i < 10 → ∀ j, j < 10 → i ≠ j → Nat.repr i ≠ Nat.repr j := by decide

/-- Within one generation call (one `Date.now()` value), the synthesized
ids of two distinct indices below 10 differ. -/
theorem mkIdeaId_inj (now : Nat) {i j : Nat} (hi : i < 10) (hj : j < 10)
    (hne : i ≠ j) : mkIdeaId now i ≠ mkIdeaId now j := by
  intro h
  have h2 := congrArg String.data h
  rw [show mkIdeaId now i = ("idea_" ++ Nat.repr now ++ "_") ++ Nat.repr i from rfl,
      show mkIdeaId now j = ("idea_" ++ Nat.repr now ++ "_") ++ Nat.repr j from rfl,
      data_append_eq, data_append_eq] at h2
  exact natRepr_ne_below_ten i hi j hj hne
    (String.ext (List.append_cancel_left h2))

/-- A successfully mapped idea carries the synthesized id of its index. -/
theorem mkIdea_id (now idx : Nat) (item : JsVal) (i : Idea)
    (h : mkIdea now idx item = .ok i) : i.id = mkIdeaId now idx := by
  cases item <;> simp [mkIdea] at h <;> (subst h; rfl)

/-- A successful `mapIdeasFrom` produces the ids of the consecutive
indices starting at `idx`, in order. -/
theorem mapIdeasFrom_ids (now : Nat) :
    ∀ (l : List JsVal) (idx : Nat) (ideas : List Idea),
      mapIdeasFrom now idx l = .ok ideas →
      ideas.map Idea.id = (List.range' idx l.length).map (mkIdeaId now)
  | [], idx, ideas, h => by
      simp [mapIdeasFrom] at h
      subst h
      simp
  | item :: rest, idx, ideas, h => by
      unfold mapIdeasFrom at h
      cases hm : mkIdea now idx item with
      | error e => rw [hm] at h; exact absurd h (by simp)
      | ok i =>
        rw [hm] at h
        cases hr : mapIdeasFrom now (idx + 1) rest with
        | error e => rw [hr] at h; exact absurd h (by simp)
        | ok is_ =>
          rw [hr] at h
          have : i :: is_ = ideas := by simpa using h
          subst this
          have hid := mkIdea_id now idx item i hm
          have htail := mapIdeasFrom_ids now rest (idx + 1) is_ hr
          simp [List.range', hid, htail]

/-- C4: for any requested count in [1, 10] and any model reply, whenever
the `generateIdeas` response processing returns normally it returns
between 1 and `count` ideas whose synthesized ids are pairwise distinct;
it never returns an empty list (zero remaining ideas are turned into the
empty-result error instead). -/
theorem generateIdeas_bounds_and_distinct_ids (content : Option String)
    (count now : Nat) (ideas : List Idea)
    (hc : 1 ≤ count) (hc10 : count ≤ 10)
    (h : generateIdeasCore content count now = .ok ideas) :
    1 ≤ ideas.length ∧ ideas.length ≤ count ∧
      (ideas.map Idea.id).Pairwise (fun a b => a ≠ b) := by
  cases content with
  | none => exact absurd h (by simp [generateIdeasCore])
  | some text =>
    rw [show generateIdeasCore (some text) count now =
        (if text = "" then .error .serviceError
         else match parseIdeasResponse text with
           | .error e => .error e
           | .ok parsed => extractIdeas parsed count now) from rfl] at h
    by_cases ht : text = ""
    · rw [if_pos ht] at h; exact absurd h (by simp)
    · rw [if_neg ht] at h
      split at h
      · exact absurd h (by simp)
      rename_i parsed hp
      unfold extractIdeas at h
      split at h
      · exact absurd h (by simp)
      rename_i arrv hl
      split at h
      · exact absurd h (by simp)
      rename_i is_ hm
      by_cases he : is_.isEmpty = true
      · rw [if_pos he] at h; exact absurd h (by simp)
      · rw [if_neg he] at h
        have hid : is_ = ideas := by simpa using h
        subst hid
        have hmap := mapIdeasFrom_ids now (List.take count arrv) 0 is_ hm
        have hlen : is_.length = (List.take count arrv).length := by
          have := congrArg List.length hmap
          simpa using this
        refine ⟨?_, ?_, ?_⟩
        · cases is_ with
          | nil => simp at he
          | cons a l => simp
        · rw [hlen, List.length_take]
          exact Nat.min_le_left _ _
        · rw [hmap]
          refine List.pairwise_map.mpr ?_
          refine (List.pairwise_lt_range' 0 _ 1 (by omega)).imp_of_mem ?_
          intro a b ha hb hab
          rw [List.mem_range'_1] at ha hb
          have hb10 : b < 10 := by
            have := hb.2
            rw [List.length_take] at this
            omega
          have ha10 : a < 10 := by omega
          exact mkIdeaId_inj now ha10 hb10 (Nat.ne_of_lt hab)

/-- Witness for `generateIdeas_bounds_and_distinct_ids`: a reply holding a
two-element JSON array yields two ideas with distinct ids. -/
theorem generateIdeas_bounds_and_distinct_ids_witness :
    1 ≤ ([⟨"idea_0_0", .str "A", .str "B"⟩,
          ⟨"idea_0_1", .str "C", .str ""⟩] : List Idea).length ∧
      ([⟨"idea_0_0", .str "A", .str "B"⟩,
        ⟨"idea_0_1", .str "C", .str ""⟩] : List Idea).length ≤ 5 ∧
      (([⟨"idea_0_0", .str "A", .str "B"⟩,
         ⟨"idea_0_1", .str "C", .str ""⟩] : List Idea).map Idea.id).Pairwise
        (fun a b => a ≠ b) :=
  generateIdeas_bounds_and_distinct_ids
    (some "[\x7b\"title\":\"A\",\"description\":\"B\"\x7d,\x7b\"title\":\"C\"\x7d]")
    5 0 _ (by omega) (by omega) rfl

/-- The model reply of the C5 scenario. -/
def c5text : String := "Sure! Here: [\x7b\"title\":\"A\",\"description\":\"B\"\x7d] Thanks"

/-- C5: the C5 reply is not directly parseable as JSON; the fallback takes
the first (greedy) bracket-delimited array substring, and the extraction
recovers exactly one Idea with title "A" and description "B" (for every
generation timestamp). -/
theorem ideaExtraction_bracket_fallback (now : Nat) :
    jsonParse c5text = none ∧
    bracketSlice c5text = some "[\x7b\"title\":\"A\",\"description\":\"B\"\x7d]" ∧
    generateIdeasCore (some c5text) 5 now =
      .ok [{ id := mkIdeaId now 0, title := .str "A", description := .str "B" }] :=
  ⟨rfl, rfl, rfl⟩

/-- C6 counterexample: an element with neither `title` nor `name` gets the
synthesized title `"Идея 1"` (the Russian literal of the source), not the
claim's `"Idea 1"`. -/
theorem synthesized_title_is_russian :
    generateIdeasCore (some "[\x7b\x7d]") 5 0 =
      .ok [{ id := "idea_0_0", title := .str "Идея 1", description := .str "" }] ∧
    ("Идея 1" : String) ≠ "Idea 1" :=
  ⟨rfl, by decide⟩

/-- An idea-like object with string `title`/`description` fields. -/
def mkItem (td : String × String) : JsVal :=
  .obj [("title", .str td.1), ("description", .str td.2)]

/-- On an idea-like object with a nonempty string title, the map callback
copies title and description verbatim. -/
theorem mkIdea_mkItem (now idx : Nat) (td : String × String) (h : td.1 ≠ "") :
    mkIdea now idx (mkItem td) =
      .ok ⟨mkIdeaId now idx, .str td.1, .str td.2⟩ := by
  by_cases hd : td.2 = "" <;>
    simp [mkIdea, mkItem, jsField, getField, jsOr, JsVal.truthy, h, hd]

/-- Lemma: `mapIdeasFrom` over idea-like objects with nonempty titles succeeds and
copies the fields verbatim, position by position. -/
theorem mapIdeasFrom_mkItems (now : Nat) :
    ∀ (items : List (String × String)) (idx : Nat),
      (∀ td ∈ items, td.1 ≠ "") →
      ∃ ideas, mapIdeasFrom now idx (items.map mkItem) = .ok ideas ∧
        ideas.length = items.length ∧
        ∀ k (hk : k < ideas.length) (hk' : k < items.length),
          (ideas.get ⟨k, hk⟩).title = .str (items.get ⟨k, hk'⟩).1 ∧
          (ideas.get ⟨k, hk⟩).description = .str (items.get ⟨k, hk'⟩).2
  | [], idx, _ => ⟨[], rfl, rfl, fun k hk _ => absurd hk (by simp)⟩
  | td :: rest, idx, hne => by
      obtain ⟨ideasr, hmapr, hlenr, hidxr⟩ :=
        mapIdeasFrom_mkItems now rest (idx + 1) (fun x hx => hne x (by simp [hx]))
      refine ⟨⟨mkIdeaId now idx, .str td.1, .str td.2⟩ :: ideasr, ?_, by simp [hlenr], ?_⟩
      · show (match mkIdea now idx (mkItem td) with
              | .error e => .error e
              | .ok i =>
                match mapIdeasFrom now (idx + 1) (rest.map mkItem) with
                | .error e => .error e
                | .ok is_ => .ok (i :: is_)) =
            Except.ok (⟨mkIdeaId now idx, .str td.1, .str td.2⟩ :: ideasr)
        rw [mkIdea_mkItem now idx td (hne td (by simp)), hmapr]
      · intro k hk hk'
        cases k with
        | zero => exact ⟨rfl, rfl⟩
        | succ m => exact hidxr m (by simpa using hk) (by simpa using hk')

/-- C6 amended: for a parsed array of N ≥ 1 idea-like objects whose `title`
fields are nonempty strings (N ≤ count), extraction yields exactly N Ideas
with title and description copied verbatim; an element with no truthy
`title`/`name` would instead get the synthesized Russian title
`"Идея N"` (1-indexed), as in `synthesized_title_is_russian`. -/
theorem ideaExtraction_verbatim (now count : Nat)
    (items : List (String × String))
    (hpos : 0 < items.length) (hlen : items.length ≤ count)
    (hne : ∀ td ∈ items, td.1 ≠ "") :
    ∃ ideas, extractIdeas (.arr (items.map mkItem)) count now = .ok ideas ∧
      ideas.length = items.length ∧
      ∀ k (hk : k < ideas.length) (hk' : k < items.length),
        (ideas.get ⟨k, hk⟩).title = .str (items.get ⟨k, hk'⟩).1 ∧
        (ideas.get ⟨k, hk⟩).description = .str (items.get ⟨k, hk'⟩).2 := by
  obtain ⟨ideas, hmap, hlen', hidx⟩ := mapIdeasFrom_mkItems now items 0 hne
  refine ⟨ideas, ?_, hlen', hidx⟩
  have htake : List.take count (items.map mkItem) = items.map mkItem :=
    List.take_of_length_le (by simpa using hlen)
  have hempty : ideas.isEmpty = false := by
    cases ideas with
    | nil => simp at hlen'; omega
    | cons a l => rfl
  show (match mapIdeasFrom now 0 (List.take count (items.map mkItem)) with
        | .error e => .error e
        | .ok is_ =>
            if is_.isEmpty then Except.error GenError.emptyResult
            else Except.ok is_) = Except.ok ideas
  rw [htake, hmap]
  simp [hempty]

/-- Witness for `ideaExtraction_verbatim` at a concrete two-object array. -/
theorem ideaExtraction_verbatim_witness :
    ∃ ideas, extractIdeas (.arr ([("A", "B"), ("C", "")].map mkItem)) 5 0 = .ok ideas ∧
      ideas.length = ([("A", "B"), ("C", "")] : List (String × String)).length ∧
      ∀ k (hk : k < ideas.length)
        (hk' : k < ([("A", "B"), ("C", "")] : List (String × String)).length),
        (ideas.get ⟨k, hk⟩).title =
          .str (([("A", "B"), ("C", "")] : List (String × String)).get ⟨k, hk'⟩).1 ∧
        (ideas.get ⟨k, hk⟩).description =
          .str (([("A", "B"), ("C", "")] : List (String × String)).get ⟨k, hk'⟩).2 :=
  ideaExtraction_verbatim 0 5 [("A", "B"), ("C", "")] (by simp) (by simp) (by decide)

/-- The `VeoPromptResult` interface of the source. -/
structure VeoPromptResult where
  veoPrompt : String
  videoTitle : String
  deriving DecidableEq, Repr

/-- JavaScript whitespace as recognised by `String.prototype.trim`
(restricted to the ASCII whitespace the involved strings can contain). -/
def isJsWs (c : Char) : Bool :=
  c = ' ' || c = '\t' || c = '\n' || c = '\r' || c = '\x0c' || c = '\x0b'

/-- Drop leading and trailing whitespace from a character list. -/
def trimChars (cs : List Char) : List Char :=
  ((cs.dropWhile isJsWs).reverse.dropWhile isJsWs).reverse

/-- Model of `String.prototype.trim`. -/
def trimStr (s : String) : String := String.mk (trimChars s.data)

/-- JavaScript `v.trim()` on a raw JS value: trims a string, throws a `TypeError`
(surfaced to the generic catch) on anything else. -/
def jsTrim : JsVal → Except GenError String
  | .str s => .ok (trimStr s)
  | _ => .error .typeError

/-- Lines 403-411 of `generateVeoPrompt`, given the two resolved values:
the `if (!veoPrompt) throw` emptiness check, then
`\x7b veoPrompt: veoPrompt.trim(), videoTitle: videoTitle.trim() \x7d`. -/
def resolveCore (vp vt : JsVal) : Except GenError VeoPromptResult :=
  if vp.truthy = false then .error .missingField
  else
    match jsTrim vp with
    | .error e => .error e
    | .ok s =>
      match jsTrim vt with
      | .error e => .error e
      | .ok t => .ok { veoPrompt := s, videoTitle := t }

/-- Lines 400-411 of `generateVeoPrompt`: the two `||` resolution chains
over the parsed reply (property access on a nullish parse result throws),
then the emptiness check and the final trims. -/
def resolveVeo (parsed : JsVal) (ideaTitle : String) :
    Except GenError VeoPromptResult :=
  match parsed with
  | .null => .error .typeError
  | .undefined => .error .typeError
  | _ =>
    resolveCore
      (jsOr (jsField parsed "veo_prompt")
        (jsOr (jsField parsed "veoPrompt")
          (jsOr (jsField parsed "prompt") (.str ""))))
      (jsOr (jsField parsed "video_title")
        (jsOr (jsField parsed "videoTitle")
          (jsOr (jsField parsed "title") (.str ideaTitle))))

/-- C7 counterexample: with `veo_prompt = " X "` the operation returns the
trimmed `"X"`, not the resolved value `" X "` itself, so the returned pair
is not the resolved prompt/title pair. -/
theorem veoPrompt_trimmed_counterexample :
    resolveVeo (.obj [("veo_prompt", .str " X ")]) "T" =
      .ok { veoPrompt := "X", videoTitle := "T" } ∧ ("X" : String) ≠ " X " :=
  ⟨rfl, by decide⟩

/-- The first truthy value of a list, else the default — the observable
value of a JavaScript `a || b || ... || d` chain. -/
def firstTruthy (vs : List JsVal) (dflt : JsVal) : JsVal :=
  (vs.find? JsVal.truthy).getD dflt

/-- A three-step `||` chain is the first truthy value among the three,
else the default. -/
theorem jsOr_chain_eq (a b c d : JsVal) :
    jsOr a (jsOr b (jsOr c d)) = firstTruthy [a, b, c] d := by
  by_cases ha : a.truthy <;> by_cases hb : b.truthy <;> by_cases hc : c.truthy <;>
    simp [jsOr, firstTruthy, List.find?, ha, hb, hc]

/-- Lemma: `resolveCore` signals the missing-field error exactly when the resolved
prompt value is falsy. -/
theorem resolveCore_missingField_iff (vp vt : JsVal) :
    resolveCore vp vt = .error .missingField ↔ vp.truthy = false := by
  cases htr : vp.truthy <;>
    cases vp <;> cases vt <;> simp_all [resolveCore, jsTrim, JsVal.truthy]

/-- A chain whose default is the empty string is falsy iff it resolved to
the empty string. -/
theorem jsOr_chain_empty_iff (a b c : JsVal) :
    (jsOr a (jsOr b (jsOr c (.str "")))).truthy = false ↔
      jsOr a (jsOr b (jsOr c (.str ""))) = .str "" := by
  rw [jsOr_chain_eq]
  unfold firstTruthy
  cases hf : [a, b, c].find? JsVal.truthy with
  | none =>
      simp [JsVal.truthy]
  | some v =>
      have hv := List.find?_some hf
      simp only [Option.getD]
      constructor
      · intro h; rw [h] at hv; exact absurd hv (by simp)
      · intro h; rw [h] at hv; exact absurd hv (by simp [JsVal.truthy])

/-- C7 amended: after a successful parse, the prompt is resolved as the
first truthy of `veo_prompt`, `veoPrompt`, `prompt` (else `""`), the title
as the first truthy of `video_title`, `videoTitle`, `title` (else the
input idea's title); the operation fails with the missing-field error
exactly when the resolved prompt is the empty string, and otherwise (for
string resolutions) returns the resolved pair with surrounding whitespace
trimmed. -/
theorem resolveVeo_resolution (fs : List (String × JsVal)) (ideaTitle : String) :
    (resolveVeo (.obj fs) ideaTitle = .error .missingField ↔
      firstTruthy [jsField (.obj fs) "veo_prompt", jsField (.obj fs) "veoPrompt",
        jsField (.obj fs) "prompt"] (.str "") = .str "") ∧
    (∀ s t : String,
      firstTruthy [jsField (.obj fs) "veo_prompt", jsField (.obj fs) "veoPrompt",
        jsField (.obj fs) "prompt"] (.str "") = .str s →
      s ≠ "" →
      firstTruthy [jsField (.obj fs) "video_title", jsField (.obj fs) "videoTitle",
        jsField (.obj fs) "title"] (.str ideaTitle) = .str t →
      resolveVeo (.obj fs) ideaTitle =
        .ok { veoPrompt := trimStr s, videoTitle := trimStr t }) := by
  have hdef : resolveVeo (.obj fs) ideaTitle =
      resolveCore
        (jsOr (jsField (.obj fs) "veo_prompt")
          (jsOr (jsField (.obj fs) "veoPrompt")
            (jsOr (jsField (.obj fs) "prompt") (.str ""))))
        (jsOr (jsField (.obj fs) "video_title")
          (jsOr (jsField (.obj fs) "videoTitle")
            (jsOr (jsField (.obj fs) "title") (.str ideaTitle)))) := rfl
  constructor
  · rw [hdef, resolveCore_missingField_iff, jsOr_chain_empty_iff, jsOr_chain_eq]
  · intro s t hs hsne ht
    rw [hdef, show (jsOr (jsField (.obj fs) "veo_prompt")
          (jsOr (jsField (.obj fs) "veoPrompt")
            (jsOr (jsField (.obj fs) "prompt") (.str "")))) =
        firstTruthy [jsField (.obj fs) "veo_prompt", jsField (.obj fs) "veoPrompt",
          jsField (.obj fs) "prompt"] (.str "") from jsOr_chain_eq _ _ _ _,
        show (jsOr (jsField (.obj fs) "video_title")
          (jsOr (jsField (.obj fs) "videoTitle")
            (jsOr (jsField (.obj fs) "title") (.str ideaTitle)))) =
        firstTruthy [jsField (.obj fs) "video_title", jsField (.obj fs) "videoTitle",
          jsField (.obj fs) "title"] (.str ideaTitle) from jsOr_chain_eq _ _ _ _,
        hs, ht]
    simp [resolveCore, jsTrim, JsVal.truthy, hsne]

/-- Witness for `resolveVeo_resolution`: `prompt`/`title` fields resolve
and the result is trimmed. -/
theorem resolveVeo_resolution_witness :
    resolveVeo (.obj [("prompt", .str " P "), ("title", .str "T")]) "I" =
      .ok { veoPrompt := "P", videoTitle := "T" } :=
  (resolveVeo_resolution [("prompt", .str " P "), ("title", .str "T")] "I").2
    " P " "T" rfl (by decide) rfl

/-- The quote characters of the strip regex `/^["'«»]|["'«»]$/g`
(automationLogger.ts line 480); `Char.ofNat 39` is the apostrophe. -/
def isQuoteCh (c : Char) : Bool :=
  c = '"' || c = Char.ofNat 39 || c = '«' || c = '»'

/-- The `^["'«»]` half of the line-480 regex: one leading quote character
is removed. -/
def dropLeadQuote (cs : List Char) : List Char :=
  match cs with
  | c :: rest => if isQuoteCh c then rest else cs
  | [] => []

/-- The `["'«»]$` half of the line-480 regex: one trailing quote character
is removed. -/
def dropTrailQuote (cs : List Char) : List Char :=
  match cs.reverse with
  | c :: rest => if isQuoteCh c then rest.reverse else cs
  | [] => cs

/-- Line 480, `title.replace(/^["'«»]|["'«»]$/g, "")`: the global regex
anchors one match at the string start and one at the string end, so one
leading and one trailing quote character of the original string are
removed (inner quotes survive). -/
def stripQuotes (cs : List Char) : List Char := dropTrailQuote (dropLeadQuote cs)

/-- The word characters of the JavaScript regex class `\w`. -/
def isWordCh (c : Char) : Bool :=
  ('a' ≤ c && c ≤ 'z') || ('A' ≤ c && c ≤ 'Z') || ('0' ≤ c && c ≤ '9') || c = '_'

/-- The sign characters of the tag-strip regex `[#@]`. -/
def isTagSign (c : Char) : Bool := c = '#' || c = '@'

/-- Line 483, `title.replace(/[#@]\w+/g, "")`, fuel-indexed: left-to-right
removal of each `#`/`@` sign followed by a maximal nonempty run of word
characters.  Every step strictly shortens the text, so any fuel above the
length is enough; out-of-fuel (unreachable from `stripTags`) yields `[]`.
`headIsWord` is the lookahead for the required `\w` after the sign. -/
def headIsWord : List Char → Bool
  | d :: _ => isWordCh d
  | [] => false

def stripTagsF : Nat → List Char → List Char
  | 0, _ => []
  | _ + 1, [] => []
  | fuel + 1, c :: rest =>
    if isTagSign c && headIsWord rest then
      stripTagsF fuel (rest.dropWhile isWordCh)
    else
      c :: stripTagsF fuel rest

/-- Line 483 with the fuel instantiated sufficiently. -/
def stripTags (cs : List Char) : List Char := stripTagsF (cs.length + 1) cs

/-- A code point of the emoji-strip regex range `\u{1F300}-\u{1F9FF}`
(line 484). -/
def isEmojiCh (c : Char) : Bool := 0x1F300 ≤ c.toNat && c.toNat ≤ 0x1F9FF

/-- Line 484, `title.replace(/[\u{1F300}-\u{1F9FF}]/gu, "")`. -/
def stripEmoji (cs : List Char) : List Char := cs.filter (fun c => !(isEmojiCh c))

/-- Model of `title.lastIndexOf(" ")`: index of the last space character, if any. -/
def lastSpaceIdx : List Char → Option Nat
  | [] => none
  | c :: rest =>
    match lastSpaceIdx rest with
    | some k => some (k + 1)
    | none => if c = ' ' then some 0 else none

/-- Lines 487-494: when the cleaned title exceeds 60 characters, take the
first 60 characters, trim them, and back off to the last space when it
sits past index 40. -/
def truncateTitle (cs : List Char) : List Char :=
  if cs.length > 60 then
    match lastSpaceIdx (trimChars (cs.take 60)) with
    | some k =>
        if k > 40 then (trimChars (cs.take 60)).take k
        else trimChars (cs.take 60)
    | none => trimChars (cs.take 60)
  else cs

/-- The cleaned title before the length cap: lines 477-484
(`content.trim()`, quote strip, tag strip, emoji strip). -/
def cleanedChars (content : String) : List Char :=
  stripEmoji (stripTags (stripQuotes (trimChars content.data)))

/-- The full post-processing of `generateTitle` (lines 477-494) applied to
the model reply. -/
def cleanTitle (content : String) : String :=
  String.mk (truncateTitle (cleanedChars content))

/-- The 80-character reply of the C8 counterexample: a quoted title whose
only whitespace sits at index 1. -/
def c8input : String :=
  String.mk ('"' :: ' ' :: (List.replicate 77 'a' ++ ['"']))

/-- C8 counterexample: an 80-character raw title with no whitespace after
position 40 for which `generateTitle` returns 59 characters, not 60 — the
quote strip exposes a leading space that the mid-truncation `trim` then
removes. -/
theorem title80_truncation_counterexample :
    c8input.length = 80 ∧
    (c8input.data.drop 41).all (fun c => !(isJsWs c)) = true ∧
    (cleanTitle c8input).length = 59 ∧ (cleanTitle c8input).length ≠ 60 := by
  decide

/-- Lemma: `dropWhile` is the identity when no element satisfies the predicate. -/
theorem dropWhile_eq_self_of_none (p : Char → Bool) :
    ∀ l : List Char, (∀ c ∈ l, p c = false) → l.dropWhile p = l
  | [], _ => rfl
  | c :: rest, h => by
      rw [List.dropWhile_cons, h c (by simp)]
      simp

/-- Lemma: `trim` is the identity on whitespace-free text. -/
theorem trimChars_eq_self (cs : List Char) (h : ∀ c ∈ cs, isJsWs c = false) :
    trimChars cs = cs := by
  unfold trimChars
  rw [dropWhile_eq_self_of_none _ cs h,
      dropWhile_eq_self_of_none _ cs.reverse
        (fun c hc => h c (List.mem_reverse.mp hc)),
      List.reverse_reverse]

/-- The leading-quote strip is the identity on quote-free text. -/
theorem dropLeadQuote_eq_self (cs : List Char) (h : ∀ c ∈ cs, isQuoteCh c = false) :
    dropLeadQuote cs = cs := by
  cases cs with
  | nil => rfl
  | cons c rest => simp [dropLeadQuote, h c (by simp)]

/-- The trailing-quote strip is the identity on quote-free text. -/
theorem dropTrailQuote_eq_self (cs : List Char) (h : ∀ c ∈ cs, isQuoteCh c = false) :
    dropTrailQuote cs = cs := by
  unfold dropTrailQuote
  cases hr : cs.reverse with
  | nil => rfl
  | cons d rest' =>
      have hd : d ∈ cs := by rw [← List.mem_reverse, hr]; simp
      simp [h d hd]

/-- The quote strip is the identity on quote-free text. -/
theorem stripQuotes_eq_self (cs : List Char) (h : ∀ c ∈ cs, isQuoteCh c = false) :
    stripQuotes cs = cs := by
  rw [stripQuotes, dropLeadQuote_eq_self cs h, dropTrailQuote_eq_self cs h]

/-- The tag strip is the identity on sign-free text (given enough fuel). -/
theorem stripTagsF_eq_self :
    ∀ (fuel : Nat) (cs : List Char), cs.length < fuel →
      (∀ c ∈ cs, isTagSign c = false) → stripTagsF fuel cs = cs
  | 0, cs, hlen, _ => absurd hlen (by simp)
  | _ + 1, [], _, _ => rfl
  | fuel + 1, c :: rest, hlen, h => by
      unfold stripTagsF
      rw [h c (by simp)]
      simp only [Bool.false_and, Bool.false_eq_true, if_false]
      rw [stripTagsF_eq_self fuel rest (by simp at hlen; omega)
            (fun d hd => h d (by simp [hd]))]

/-- The emoji strip is the identity on text without in-range code points. -/
theorem stripEmoji_eq_self (cs : List Char) (h : ∀ c ∈ cs, isEmojiCh c = false) :
    stripEmoji cs = cs :=
  List.filter_eq_self.mpr (fun c hc => by simp [h c hc])

/-- A spaceless text has no last-space index. -/
theorem lastSpaceIdx_of_no_space :
    ∀ cs : List Char, (∀ c ∈ cs, c ≠ ' ') → lastSpaceIdx cs = none
  | [], _ => rfl
  | c :: rest, h => by
      unfold lastSpaceIdx
      rw [lastSpaceIdx_of_no_space rest (fun d hd => h d (by simp [hd]))]
      simp [h c (by simp)]

/-- Lemma: `trim` never lengthens the text. -/
theorem trimChars_length_le (cs : List Char) :
    (trimChars cs).length ≤ cs.length := by
  unfold trimChars
  calc ((cs.dropWhile isJsWs).reverse.dropWhile isJsWs).reverse.length
      = ((cs.dropWhile isJsWs).reverse.dropWhile isJsWs).length :=
        List.length_reverse _
    _ ≤ (cs.dropWhile isJsWs).reverse.length :=
        (List.dropWhile_sublist _).length_le
    _ = (cs.dropWhile isJsWs).length := List.length_reverse _
    _ ≤ cs.length := (List.dropWhile_sublist _).length_le

/-- The length cap of lines 487-494 never returns more than 60 characters
(a short title passes through unchanged and is already within the cap). -/
theorem truncateTitle_length_le (cs : List Char) :
    (truncateTitle cs).length ≤ 60 := by
  unfold truncateTitle
  by_cases h : cs.length > 60
  · rw [if_pos h]
    have ht : (trimChars (cs.take 60)).length ≤ 60 :=
      le_trans (trimChars_length_le _) (by simp [List.length_take])
    split
    · split_ifs with hk
      · exact le_trans ((List.take_sublist _ _).length_le) ht
      · exact ht
    · exact ht
  · rw [if_neg h]
    omega

/-- A text without a last-space index has no space at all. -/
theorem lastSpaceIdx_none_no_space :
    ∀ cs : List Char, lastSpaceIdx cs = none → ∀ c ∈ cs, c ≠ ' '
  | [], _, c, hc => absurd hc (by simp)
  | c :: rest, h, d, hd => by
      unfold lastSpaceIdx at h
      split at h
      · exact absurd h (by simp)
      · rename_i hr
        by_cases hc : c = ' '
        · rw [if_pos hc] at h; exact absurd h (by simp)
        · rcases List.mem_cons.mp hd with h1 | h2
          · rw [h1]; exact hc
          · exact lastSpaceIdx_none_no_space rest hr d h2

/-- The last-space index holds a space, and nothing after it is a space. -/
theorem lastSpaceIdx_spec :
    ∀ (cs : List Char) (k : Nat), lastSpaceIdx cs = some k →
      cs[k]? = some ' ' ∧ ∀ c ∈ cs.drop (k + 1), c ≠ ' '
  | [], k, h => absurd h (by simp [lastSpaceIdx])
  | c :: rest, k, h => by
      unfold lastSpaceIdx at h
      split at h
      · rename_i k' hr
        obtain ⟨h1, h2⟩ := lastSpaceIdx_spec rest k' hr
        have hk : k' + 1 = k := by simpa using h
        subst hk
        refine ⟨by simpa using h1, ?_⟩
        intro d hd
        exact h2 d (by simpa using hd)
      · rename_i hr
        by_cases hc : c = ' '
        · rw [if_pos hc] at h
          have hk : 0 = k := by simpa using h
          subst hk
          refine ⟨by simp [hc], ?_⟩
          intro d hd
          exact lastSpaceIdx_none_no_space rest hr d (by simpa using hd)
        · rw [if_neg hc] at h; exact absurd h (by simp)

/-- C8 amended: the length cap never returns more than 60 characters; an
80-character cleaned title free of whitespace, quote, tag and emoji
characters is returned as exactly its first 60 characters; and when the
trimmed 60-character prefix has its last space past (post-trim) index 40,
the result is that prefix cut at the last space — a position that holds a
space and is followed by no further space.  (The claim as stated fails
because the cap trims the 60-character prefix before measuring, see
`title80_truncation_counterexample`.) -/
theorem title_truncation_amended (content s : String)
    (h80 : s.length = 80)
    (hplain : ∀ c ∈ s.data, isJsWs c = false ∧ isQuoteCh c = false ∧
      isTagSign c = false ∧ isEmojiCh c = false) :
    (cleanTitle content).length ≤ 60 ∧
    (cleanTitle s = String.mk (s.data.take 60) ∧ (cleanTitle s).length = 60) ∧
    (∀ k, 60 < (cleanedChars content).length →
      lastSpaceIdx (trimChars ((cleanedChars content).take 60)) = some k →
      40 < k →
      (cleanTitle content).data =
          (trimChars ((cleanedChars content).take 60)).take k ∧
        (trimChars ((cleanedChars content).take 60))[k]? = some ' ' ∧
        ∀ c ∈ (trimChars ((cleanedChars content).take 60)).drop (k + 1),
          c ≠ ' ') := by
  have hdata80 : s.data.length = 80 := h80
  have hclean : cleanedChars s = s.data := by
    unfold cleanedChars
    rw [trimChars_eq_self s.data (fun c hc => (hplain c hc).1),
        stripQuotes_eq_self s.data (fun c hc => (hplain c hc).2.1),
        show stripTags s.data = s.data from
          stripTagsF_eq_self _ s.data (Nat.lt_succ_self _)
            (fun c hc => (hplain c hc).2.2.1),
        stripEmoji_eq_self s.data (fun c hc => (hplain c hc).2.2.2)]
  have htake : trimChars (s.data.take 60) = s.data.take 60 :=
    trimChars_eq_self _
      (fun c hc => (hplain c ((List.take_sublist _ _).subset hc)).1)
  have hnosp : lastSpaceIdx (trimChars (s.data.take 60)) = none := by
    rw [htake]
    refine lastSpaceIdx_of_no_space _ (fun c hc hsp => ?_)
    have := (hplain c ((List.take_sublist _ _).subset hc)).1
    rw [hsp] at this
    simp [isJsWs] at this
  refine ⟨?_, ⟨?_, ?_⟩, ?_⟩
  · exact truncateTitle_length_le _
  · unfold cleanTitle
    rw [hclean]
    unfold truncateTitle
    rw [if_pos (by omega), hnosp, htake]
  · unfold cleanTitle
    rw [hclean]
    unfold truncateTitle
    rw [if_pos (by omega), hnosp, htake]
    simp [List.length_take, hdata80]
  · intro k hlen hls hk40
    obtain ⟨hsp, hafter⟩ := lastSpaceIdx_spec _ k hls
    refine ⟨?_, hsp, hafter⟩
    unfold cleanTitle truncateTitle
    rw [if_pos hlen, hls]
    show (if k > 40 then List.take k (trimChars (List.take 60 (cleanedChars content)))
          else trimChars (List.take 60 (cleanedChars content))) =
        List.take k (trimChars (List.take 60 (cleanedChars content)))
    rw [if_pos hk40]

/-- Witness for `title_truncation_amended`: an 80-character run of `a`s is
cut to exactly its first 60 characters. -/
theorem title_truncation_amended_witness :
    (cleanTitle "t").length ≤ 60 ∧
    (cleanTitle (String.mk (List.replicate 80 'a')) =
        String.mk ((String.mk (List.replicate 80 'a')).data.take 60) ∧
      (cleanTitle (String.mk (List.replicate 80 'a'))).length = 60) ∧
    (∀ k, 60 < (cleanedChars "t").length →
      lastSpaceIdx (trimChars ((cleanedChars "t").take 60)) = some k →
      40 < k →
      (cleanTitle "t").data =
          (trimChars ((cleanedChars "t").take 60)).take k ∧
        (trimChars ((cleanedChars "t").take 60))[k]? = some ' ' ∧
        ∀ c ∈ (trimChars ((cleanedChars "t").take 60)).drop (k + 1),
          c ≠ ' ') :=
  title_truncation_amended "t" (String.mk (List.replicate 80 'a'))
    (by decide) (by decide)

/-- Membership in the trimmed text implies membership in the text. -/
theorem mem_trimChars {c : Char} {cs : List Char} (h : c ∈ trimChars cs) :
    c ∈ cs := by
  unfold trimChars at h
  rw [List.mem_reverse] at h
  have h2 := (List.dropWhile_sublist _).subset h
  rw [List.mem_reverse] at h2
  exact (List.dropWhile_sublist _).subset h2

/-- The length cap only ever keeps characters of its input. -/
theorem truncateTitle_subset (cs : List Char) : truncateTitle cs ⊆ cs := by
  unfold truncateTitle
  by_cases h : cs.length > 60
  · rw [if_pos h]
    have hbase : trimChars (cs.take 60) ⊆ cs :=
      fun c hc => (List.take_sublist _ _).subset (mem_trimChars hc)
    split
    · split_ifs with hk
      · exact fun c hc => hbase ((List.take_sublist _ _).subset hc)
      · exact hbase
    · exact hbase
  · rw [if_neg h]
    exact fun c hc => hc

/-- No character of the returned title lies in the stripped emoji range. -/
theorem cleanTitle_no_emoji (content : String) :
    ∀ c ∈ (cleanTitle content).data, isEmojiCh c = false := by
  intro c hc
  have h1 : c ∈ cleanedChars content := truncateTitle_subset _ hc
  have h2 := List.of_mem_filter h1
  simpa using h2

/-- A word-character head of the tag-strip output comes from a
word-character head of the input. -/
theorem stripTagsF_head_word :
    ∀ (fuel : Nat) (cs : List Char) (b : Char),
      (stripTagsF fuel cs).head? = some b → isWordCh b = true →
      ∃ d, cs.head? = some d ∧ isWordCh d = true
  | 0, cs, b, hb, _ => absurd hb (by simp [stripTagsF])
  | _ + 1, [], b, hb, _ => absurd hb (by simp [stripTagsF])
  | fuel + 1, c :: rest, b, hb, hw => by
      unfold stripTagsF at hb
      by_cases hcond : (isTagSign c && headIsWord rest) = true
      · rw [if_pos hcond] at hb
        obtain ⟨d, hd, hdw⟩ := stripTagsF_head_word fuel _ b hb hw
        have hnw := List.head?_dropWhile_not isWordCh rest
        rw [hd] at hnw
        simp at hnw
        exact absurd hdw (by simp [hnw])
      · rw [if_neg hcond] at hb
        simp at hb
        exact ⟨c, rfl, hb ▸ hw⟩

/-- The tag-strip output never has a `#`/`@` sign immediately followed by
a word character: no `[#@]\w+` token survives the tag-strip stage. -/
theorem stripTagsF_no_token :
    ∀ (fuel : Nat) (cs : List Char),
      (stripTagsF fuel cs).Chain'
        (fun a b => isTagSign a = true → isWordCh b = false)
  | 0, _ => by simp [stripTagsF]
  | _ + 1, [] => by simp [stripTagsF]
  | fuel + 1, c :: rest => by
      unfold stripTagsF
      by_cases hcond : (isTagSign c && headIsWord rest) = true
      · rw [if_pos hcond]
        exact stripTagsF_no_token fuel _
      · rw [if_neg hcond]
        rw [List.chain'_cons']
        refine ⟨?_, stripTagsF_no_token fuel rest⟩
        intro b hb hsign
        by_contra hw
        have hw' : isWordCh b = true := by
          revert hw; cases isWordCh b <;> simp
        obtain ⟨d, hd, hdw⟩ :=
          stripTagsF_head_word fuel rest b (Option.mem_def.mp hb) hw'
        rw [hsign] at hcond
        simp only [Bool.true_and] at hcond
        cases rest with
        | nil => simp at hd
        | cons r rs =>
            simp at hd
            simp [headIsWord] at hcond
            rw [hd] at hcond
            exact absurd hdw (by simp [hcond])

/-- A title wrapped in exactly one layer of quote characters loses that
pair (an inner layer survives, as the counterexample shows). -/
theorem stripQuotes_wrap (q1 q2 : Char) (inner : List Char)
    (h1 : isQuoteCh q1 = true) (h2 : isQuoteCh q2 = true) :
    stripQuotes (q1 :: (inner ++ [q2])) = inner := by
  unfold stripQuotes
  have hlead : dropLeadQuote (q1 :: (inner ++ [q2])) = inner ++ [q2] := by
    simp [dropLeadQuote, h1]
  rw [hlead]
  unfold dropTrailQuote
  rw [show (inner ++ [q2]).reverse = q2 :: inner.reverse by simp]
  simp [h2]

/-- C9 counterexample: (a) a doubly quote-wrapped title keeps its inner
quote pair, so a title arriving wrapped in quote characters is not always
returned without surrounding quotes; (b) the sparkles emoji U+2728 lies
outside the stripped range U+1F300-U+1F9FF and survives; (c) removing an
in-range emoji can even expose a fresh `#`-token in the returned title. -/
theorem title_postprocessing_counterexample :
    (cleanTitle (String.mk ['«', '"', 'X', '"', '»']) =
        String.mk ['"', 'X', '"'] ∧
      isQuoteCh '«' = true ∧ isQuoteCh '»' = true ∧ isQuoteCh '"' = true) ∧
    cleanTitle (String.mk ['a', Char.ofNat 0x2728]) =
      String.mk ['a', Char.ofNat 0x2728] ∧
    cleanTitle (String.mk ['#', Char.ofNat 0x1F600, 'a', 'b']) =
      String.mk ['#', 'a', 'b'] := by
  decide

/-- C9 amended: the post-processing removes one leading and one trailing
quote character from the set `"`, `'`, `«`, `»`; removes the `[#@]\w+` tag
tokens present at the tag-strip stage (a later emoji removal can expose a
new one); and removes exactly the code points U+1F300-U+1F9FF, which never
appear in the returned title. -/
theorem title_postprocessing_amended (content : String) (cs inner : List Char)
    (q1 q2 : Char) (hq1 : isQuoteCh q1 = true) (hq2 : isQuoteCh q2 = true) :
    (∀ c ∈ (cleanTitle content).data, isEmojiCh c = false) ∧
    (stripTags cs).Chain' (fun a b => isTagSign a = true → isWordCh b = false) ∧
    stripQuotes (q1 :: (inner ++ [q2])) = inner :=
  ⟨cleanTitle_no_emoji content, stripTagsF_no_token _ _,
   stripQuotes_wrap q1 q2 inner hq1 hq2⟩

/-- Witness for `title_postprocessing_amended` at concrete inputs. -/
theorem title_postprocessing_amended_witness :
    (∀ c ∈ (cleanTitle "hi").data, isEmojiCh c = false) ∧
    (stripTags ['#', 'a', ' ', 'b']).Chain'
      (fun a b => isTagSign a = true → isWordCh b = false) ∧
    stripQuotes ('«' :: (['X'] ++ ['»'])) = ['X'] :=
  title_postprocessing_amended "hi" ['#', 'a', ' ', 'b'] ['X'] '«' '»' rfl rfl
